import Mathlib

/-!
Shallow embedding of `src/osquery/sql/sqlite_string.cpp`: the four SQLite
scalar extension functions `split`, `regex_split`, `regex_replace` and
`inet_aton`, their shared drivers `callStringSplitFunc` and
`callStringReplaceFunc`, and the value-adaptation helpers.

External collaborators (the SQLite value API, boost::regex, libc
`inet_pton`/`ntohl`, and `osquery::split` from `osquery/core/conversions`)
are modelled explicitly; each such model carries a doc comment saying what
it stands for.
-/

/-- A SQLite value as seen by the extension functions: Null, Text or Integer. -/
inductive Value where
  | null : Value
  | text : String → Value
  | int : Int → Value
deriving DecidableEq

/-- The outcome of one scalar-function call: either a value handed back via
`sqlite3_result_null` / `sqlite3_result_text` / `sqlite3_result_int64`, or an
error message handed to `sqlite3_result_error`. -/
inductive FuncResult where
  | val : Value → FuncResult
  | err : String → FuncResult
deriving DecidableEq

/-- Model of `sqlite3_value_text`: the argument rendered as a string.  The
drivers only call it after the Null check, so the Null case is unreachable. -/
def valueText : Value → String
  | Value.null => ""
  | Value.text s => s
  | Value.int n => toString n

/-- Reads leading decimal digits of a character list into a number, stopping at
the first non-digit.  Helper for the text-to-integer coercion model. -/
def readDigits : Nat → List Char → Nat
  | acc, [] => acc
  | acc, c :: cs => if c.isDigit then readDigits (acc * 10 + (c.toNat - 48)) cs else acc

/-- Modelled from the spec: the SQL engine's numeric coercion of a text value,
as applied by `sqlite3_value_int` — an optional sign followed by leading
decimal digits.  No claim exercises this path (the index argument is always an
integer value in the claims). -/
def sqliteAtoi (s : String) : Int :=
  match s.toList with
  | '-' :: cs => - (readDigits 0 cs : Int)
  | '+' :: cs => (readDigits 0 cs : Int)
  | cs => (readDigits 0 cs : Int)

/-- Model of `sqlite3_value_int` before its truncation to the C `int` type:
the argument's 64-bit integer value. -/
def valueInt : Value → Int
  | Value.null => 0
  | Value.text s => sqliteAtoi s
  | Value.int n => n

/-- Truncation of a 64-bit integer to the 32-bit C `int` returned by
`sqlite3_value_int` (two's-complement wrap-around). -/
def toInt32 (n : Int) : Int := (n + 2 ^ 31) % 2 ^ 32 - 2 ^ 31

/-- `static_cast<size_t>` applied to a C integer: reduction modulo `2 ^ 64`
into an unsigned 64-bit number. -/
def sizeTOfInt (n : Int) : Nat := (n % 2 ^ 64).toNat

/-- Modelled fragment of a compiled boost regular expression: one atom is
either a literal character or a bracket character class `[...]` / `[^...]`
(the Bool is the negation flag). -/
inductive Atom where
  | lit : Char → Atom
  | cls : Bool → List Char → Atom
deriving DecidableEq

/-- Whether a single character matches an atom. -/
def atomMatch : Atom → Char → Bool
  | Atom.lit c, x => x = c
  | Atom.cls neg cs, x => if neg then !(cs.contains x) else cs.contains x

/-- One item of a compiled pattern: an atom, optionally under the
one-or-more quantifier `+`. -/
structure Item where
  atom : Atom
  many : Bool
deriving DecidableEq

/-- All ways to match a pattern (list of items) at the head of a character
list, returned as the possible remainders, greedy alternatives first.  Every
atom consumes exactly one character, so the fuel `cs.length + items.length + 1`
used by the `reMatch` wrapper is always sufficient. -/
def reMatchF : Nat → List Item → List Char → List (List Char)
  | 0, _, _ => []
  | _ + 1, [], cs => [cs]
  | _ + 1, _ :: _, [] => []
  | f + 1, it :: rest, c :: cs =>
    if atomMatch it.atom c then
      if it.many then
        reMatchF f (it :: rest) cs ++ reMatchF f rest cs
      else
        reMatchF f rest cs
    else []

/-- Match a compiled pattern at the head of a character list: the possible
remainders, the greedy (longest) alternative first. -/
def reMatch (items : List Item) (cs : List Char) : List (List Char) :=
  reMatchF (cs.length + items.length + 1) items cs

/-- Body of a bracket character class, up to the closing `]`.  Character
ranges and escaped alphanumerics are outside the modelled fragment and make
compilation fail. -/
def parseCls : List Char → Option (List Char × List Char)
  | [] => none
  | ']' :: rest => some ([], rest)
  | '\\' :: c :: rest =>
    if c.isAlphanum then none
    else
      match parseCls rest with
      | none => none
      | some (l, r) => some (c :: l, r)
  | c :: rest =>
    if c = '[' ∨ c = '\\' ∨ c = '-' then none
    else
      match parseCls rest with
      | none => none
      | some (l, r) => some (c :: l, r)

/-- One atom of a pattern string: an escaped literal `\c`, a bracket class,
the any-character `.` (everything but newline), or a plain literal character.
Constructs outside the modelled fragment make compilation fail. -/
def parseAtom : List Char → Option (Atom × List Char)
  | [] => none
  | '\\' :: c :: rest => if c.isAlphanum then none else some (Atom.lit c, rest)
  | '[' :: '^' :: rest =>
    match parseCls rest with
    | none => none
    | some (l, r) => some (Atom.cls true l, r)
  | '[' :: rest =>
    match parseCls rest with
    | none => none
    | some (l, r) => some (Atom.cls false l, r)
  | '.' :: rest => some (Atom.cls true ['\n'], rest)
  | c :: rest =>
    if c = '*' ∨ c = '+' ∨ c = '?' ∨ c = '(' ∨ c = ')' ∨ c = ']' ∨ c = '[' ∨
        c = '\x7b' ∨ c = '\x7d' ∨ c = '^' ∨ c = '$' ∨ c = '|' ∨ c = '\\' ∨ c = '.' then
      none
    else some (Atom.lit c, rest)

/-- Compile a pattern character list into items, reading an optional `+`
after each atom.  Fuel-driven; each step consumes at least one character, so
the fuel `length + 1` used by `parsePattern` is always sufficient. -/
def parseItemsF : Nat → List Char → Option (List Item)
  | 0, _ => none
  | _ + 1, [] => some []
  | f + 1, c :: cs =>
    match parseAtom (c :: cs) with
    | none => none
    | some (a, rest) =>
      match rest with
      | '+' :: rest2 => (parseItemsF f rest2).map (fun l => ⟨a, true⟩ :: l)
      | '*' :: _ => none
      | '?' :: _ => none
      | '\x7b' :: _ => none
      | rest3 => (parseItemsF f rest3).map (fun l => ⟨a, false⟩ :: l)

/-- Modelled fragment of the boost regular-expression compiler
(`boost::regex(pattern)`): literal characters, backslash escapes of
non-alphanumeric characters, bracket character classes with optional
negation, the any-character `.`, and the one-or-more quantifier `+`.  Any
other construct is treated as a compilation failure. -/
def parsePattern (s : String) : Option (List Item) :=
  parseItemsF (s.toList.length + 1) s.toList

/-- Whether the pattern matches at some position of the character list. -/
def hasMatchIn (re : List Item) : List Char → Bool
  | [] => false
  | c :: cs => !(reMatch re (c :: cs)).isEmpty || hasMatchIn re cs

/-- Scan for `boost::algorithm::split_regex`: walk the input left to right,
closing the current field (accumulated reversed in `acc`) at each leftmost
non-overlapping match of the pattern.  A successful match consumes at least
one character, so the fuel `cs.length` used by `regexSplit` is sufficient. -/
def splitScanF (re : List Item) : Nat → List Char → List Char → List (List Char)
  | _, acc, [] => [acc.reverse]
  | 0, acc, cs => [acc.reverse ++ cs]
  | f + 1, acc, c :: cs =>
    match (reMatch re (c :: cs)).head? with
    | some rest => acc.reverse :: splitScanF re f [] rest
    | none => splitScanF re f (c :: acc) cs

/-- Scan for `boost::regex_replace`: walk the input left to right, replacing
each leftmost non-overlapping match of the pattern with the replacement text
(taken literally; capture references are outside the modelled fragment) and
copying unmatched characters through. -/
def replaceScanF (re : List Item) (repl : List Char) : Nat → List Char → List Char
  | _, [] => []
  | 0, cs => cs
  | f + 1, c :: cs =>
    match (reMatch re (c :: cs)).head? with
    | some rest => repl ++ replaceScanF re repl f rest
    | none => c :: replaceScanF re repl f cs

/-- `regexSplit` of the source: split the input at each non-overlapping match
of the token compiled as a regular expression
(`boost::algorithm::split_regex`).  A compilation failure surfaces as an
error, modelling the boost exception propagating out of the call. -/
def regexSplit (input : String) (token : String) : Except String (List String) :=
  match parsePattern token with
  | none => Except.error "invalid regular expression"
  | some re =>
    Except.ok ((splitScanF re input.toList.length [] input.toList).map (fun l => String.mk l))

/-- `regexReplace` of the source: `boost::regex_replace(input, boost::regex
(pattern), replace_with)` — global replacement of every non-overlapping match.
A compilation failure surfaces as an error, modelling the boost exception
propagating out of the call. -/
def regexReplace (input pattern replace_with : String) : Except String String :=
  match parsePattern pattern with
  | none => Except.error "invalid regular expression"
  | some re =>
    Except.ok (String.mk (replaceScanF re replace_with.toList input.toList.length input.toList))

/-- Modelled from the spec: `osquery::split` (declared in
`osquery/core/conversions.h`, body not part of the reviewed source) decomposes
the input into maximal runs of characters not in the delimiter set; each
delimiter character independently ends a run.  `acc` accumulates the current
run reversed. -/
def tokenRunsAux (delims : List Char) : List Char → List Char → List (List Char)
  | acc, [] => if acc = [] then [] else [acc.reverse]
  | acc, c :: cs =>
    if c ∈ delims then
      if acc = [] then tokenRunsAux delims [] cs
      else acc.reverse :: tokenRunsAux delims [] cs
    else tokenRunsAux delims (c :: acc) cs

/-- `tokenSplit` of the source: character-class splitting of the input on the
set of delimiter characters (see `tokenRunsAux`). -/
def tokenSplit (input tokens : String) : List String :=
  (tokenRunsAux tokens.toList [] input.toList).map (fun l => String.mk l)

/-- `callStringSplitFunc` of the source: shared driver of `split` and
`regex_split`.  Null check first, then the empty-token check, then the split
strategy `f`, then index selection.  An `Except.error` from `f` models a
strategy failure (regex compilation) propagating out through the engine's
error-reporting path. -/
def callStringSplitFunc (f : String → String → Except String (List String))
    (a0 a1 a2 : Value) : FuncResult :=
  if a0 = Value.null ∨ a1 = Value.null ∨ a2 = Value.null then
    FuncResult.val Value.null
  else
    let input := valueText a0
    let token := valueText a1
    let index := sizeTOfInt (toInt32 (valueInt a2))
    if token = "" then
      FuncResult.err "Invalid input to split function"
    else
      match f input token with
      | Except.error e => FuncResult.err e
      | Except.ok result =>
        if h : result.length ≤ index then
          FuncResult.val Value.null
        else
          FuncResult.val (Value.text (result.get ⟨index, Nat.lt_of_not_le h⟩))

/-- The registered `split` function (`tokenStringSplitFunc` of the source). -/
def tokenStringSplitFunc (a0 a1 a2 : Value) : FuncResult :=
  callStringSplitFunc (fun input tokens => Except.ok (tokenSplit input tokens)) a0 a1 a2

/-- The registered `regex_split` function (`regexStringSplitFunc` of the source). -/
def regexStringSplitFunc (a0 a1 a2 : Value) : FuncResult :=
  callStringSplitFunc regexSplit a0 a1 a2

/-- `callStringReplaceFunc` of the source: driver of `regex_replace`.  Null
check first, then the empty-find-string check, then the replace strategy. -/
def callStringReplaceFunc (f : String → String → String → Except String String)
    (a0 a1 a2 : Value) : FuncResult :=
  if a0 = Value.null ∨ a1 = Value.null ∨ a2 = Value.null then
    FuncResult.val Value.null
  else
    let input := valueText a0
    let find_string := valueText a1
    let replace_with := valueText a2
    if find_string = "" then
      FuncResult.err "Invalid substring to find in replace function"
    else
      match f input find_string replace_with with
      | Except.error e => FuncResult.err e
      | Except.ok result => FuncResult.val (Value.text result)

/-- The registered `regex_replace` function (`regexStringReplaceFunc` of the
source). -/
def regexStringReplaceFunc (a0 a1 a2 : Value) : FuncResult :=
  callStringReplaceFunc regexReplace a0 a1 a2

/-- Split a character list at every `.` (fields may be empty). -/
def splitDots : List Char → List (List Char)
  | [] => [[]]
  | c :: cs =>
    if c = '.' then [] :: splitDots cs
    else
      match splitDots cs with
      | [] => [[c]]
      | l :: rest => (c :: l) :: rest

/-- One octet of a dotted-decimal IPv4 address: decimal digits only, no
leading zero (except `0` itself), value at most 255. -/
def octetValue (l : List Char) : Option Nat :=
  if l = [] then none
  else if ¬ l.all Char.isDigit then none
  else if 1 < l.length ∧ l.head? = some '0' then none
  else
    let v := l.foldl (fun a c => a * 10 + (c.toNat - 48)) 0
    if v ≤ 255 then some v else none

/-- Modelled from the spec: `inet_pton(AF_INET, ...)` (libc, external to the
reviewed source) parses a strict dotted-decimal IPv4 string `a.b.c.d` — four
octets, digits only, no leading zeros, each at most 255. -/
def parseIPv4 (s : String) : Option (Nat × Nat × Nat × Nat) :=
  match splitDots s.toList with
  | [a, b, c, d] =>
    match octetValue a, octetValue b, octetValue c, octetValue d with
    | some x, some y, some z, some w => some (x, y, z, w)
    | _, _, _, _ => none
  | _ => none

/-- `ip4StringToDecimalFunc` of the source (the registered `inet_aton`
function): Null propagates; a text containing a colon is taken as IPv6 and
yields Null; otherwise parse as dotted-decimal IPv4 and emit
`ntohl(in4->sin_addr.s_addr)`, the four octets read as one big-endian 32-bit
number; on parse failure yield Null. -/
def ip4StringToDecimalFunc (a0 : Value) : FuncResult :=
  if a0 = Value.null then FuncResult.val Value.null
  else
    let address := valueText a0
    if ':' ∈ address.toList then FuncResult.val Value.null
    else
      match parseIPv4 address with
      | some (x, y, z, w) =>
        FuncResult.val (Value.int (x * 2 ^ 24 + y * 2 ^ 16 + z * 2 ^ 8 + w))
      | none => FuncResult.val Value.null

/-- `registerStringExtensions` of the source: the four registered function
names with their fixed arities. -/
def registerStringExtensions : List (String × Nat) :=
  [("split", 3), ("regex_split", 3), ("regex_replace", 3), ("inet_aton", 1)]

/-! ### Helper lemmas -/

/-- The head of a list, when present, is a member. -/
theorem head?_some_mem {α : Type} {l : List α} {a : α} (h : l.head? = some a) : a ∈ l := by
  cases l with
  | nil => simp at h
  | cons x xs =>
    simp only [List.head?_cons, Option.some.injEq] at h
    exact h ▸ List.mem_cons_self x xs

/-- Matching never grows the remainder. -/
theorem reMatchF_length_le (f : Nat) : ∀ (items : List Item) (cs r : List Char),
    r ∈ reMatchF f items cs → r.length ≤ cs.length := by
  induction f with
  | zero => intro items cs r h; simp [reMatchF] at h
  | succ f ih =>
    intro items cs r h
    cases items with
    | nil =>
      simp only [reMatchF, List.mem_singleton] at h
      simp [h]
    | cons it rest =>
      cases cs with
      | nil => simp [reMatchF] at h
      | cons c cs =>
        simp only [reMatchF] at h
        by_cases hm : atomMatch it.atom c
        · rw [if_pos hm] at h
          by_cases hq : it.many
          · rw [if_pos hq, List.mem_append] at h
            rcases h with h | h
            · exact le_trans (ih _ _ _ h) (by simp)
            · exact le_trans (ih _ _ _ h) (by simp)
          · rw [if_neg hq] at h
            exact le_trans (ih _ _ _ h) (by simp)
        · rw [if_neg hm] at h
          simp at h

/-- A non-empty pattern consumes at least one character when it matches. -/
theorem reMatchF_cons_lt (f : Nat) (it : Item) (rest : List Item) (cs r : List Char)
    (h : r ∈ reMatchF f (it :: rest) cs) : r.length < cs.length := by
  cases f with
  | zero => simp [reMatchF] at h
  | succ f =>
    cases cs with
    | nil => simp [reMatchF] at h
    | cons c cs =>
      simp only [reMatchF] at h
      by_cases hm : atomMatch it.atom c
      · rw [if_pos hm] at h
        by_cases hq : it.many
        · rw [if_pos hq, List.mem_append] at h
          rcases h with h | h
          · exact Nat.lt_succ_of_le (reMatchF_length_le f _ _ _ h)
          · exact Nat.lt_succ_of_le (reMatchF_length_le f _ _ _ h)
        · rw [if_neg hq] at h
          exact Nat.lt_succ_of_le (reMatchF_length_le f _ _ _ h)
      · rw [if_neg hm] at h
        simp at h

/-- `reMatch` version of `reMatchF_cons_lt`. -/
theorem reMatch_cons_lt (it : Item) (rest : List Item) (cs r : List Char)
    (h : r ∈ reMatch (it :: rest) cs) : r.length < cs.length :=
  reMatchF_cons_lt _ it rest cs r h

/-- Regex splitting a list of `n` characters yields at most `n + 1` fields. -/
theorem splitScanF_length_le (it : Item) (rest : List Item) (f : Nat) :
    ∀ (acc cs : List Char), (splitScanF (it :: rest) f acc cs).length ≤ cs.length + 1 := by
  induction f with
  | zero => intro acc cs; cases cs <;> simp [splitScanF]
  | succ f ih =>
    intro acc cs
    cases cs with
    | nil => simp [splitScanF]
    | cons c cs =>
      cases hh : (reMatch (it :: rest) (c :: cs)).head? with
      | none =>
        simp only [splitScanF, hh]
        exact Nat.le_trans (ih (c :: acc) cs) (by simp)
      | some rest' =>
        have hlt := reMatch_cons_lt it rest (c :: cs) rest' (head?_some_mem hh)
        simp only [splitScanF, hh, List.length_cons]
        have h2 := ih [] rest'
        simp only [List.length_cons] at hlt
        omega

/-- Token splitting a list of `n` characters yields at most `n + 1` runs. -/
theorem tokenRunsAux_length_le (d : List Char) : ∀ (cs acc : List Char),
    (tokenRunsAux d acc cs).length ≤ cs.length + 1 := by
  intro cs
  induction cs with
  | nil =>
    intro acc
    by_cases h : acc = [] <;> simp [tokenRunsAux, h]
  | cons c cs ih =>
    intro acc
    by_cases hd : c ∈ d
    · by_cases ha : acc = []
      · simp only [tokenRunsAux, if_pos hd, if_pos ha]
        exact le_trans (ih []) (by simp)
      · simp only [tokenRunsAux, if_pos hd, if_neg ha, List.length_cons]
        have := ih []
        omega
    · simp only [tokenRunsAux, if_neg hd]
      exact le_trans (ih (c :: acc)) (by simp)

/-- Every run produced by `tokenRunsAux` is non-empty and free of delimiter
characters, provided the accumulated run is. -/
theorem tokenRunsAux_pieces (d : List Char) : ∀ (cs acc : List Char),
    (∀ c ∈ acc, c ∉ d) →
    ∀ l ∈ tokenRunsAux d acc cs, l ≠ [] ∧ ∀ c ∈ l, c ∉ d := by
  intro cs
  induction cs with
  | nil =>
    intro acc hacc l hl
    by_cases h : acc = []
    · simp [tokenRunsAux, h] at hl
    · simp only [tokenRunsAux, if_neg h, List.mem_singleton] at hl
      subst hl
      refine ⟨by simpa using h, ?_⟩
      intro c hc
      exact hacc c (by simpa using hc)
  | cons c0 cs ih =>
    intro acc hacc l hl
    by_cases hd : c0 ∈ d
    · by_cases ha : acc = []
      · rw [tokenRunsAux, if_pos hd, if_pos ha] at hl
        exact ih [] (by simp) l hl
      · rw [tokenRunsAux, if_pos hd, if_neg ha] at hl
        rcases List.mem_cons.mp hl with h1 | h1
        · subst h1
          refine ⟨by simpa using ha, ?_⟩
          intro c hc
          exact hacc c (by simpa using hc)
        · exact ih [] (by simp) l h1
    · rw [tokenRunsAux, if_neg hd] at hl
      refine ih (c0 :: acc) ?_ l hl
      intro c hc
      rcases List.mem_cons.mp hc with h1 | h1
      · subst h1; exact hd
      · exact hacc c h1

/-- If the pattern matches nowhere in the input, the replace scan copies the
input through unchanged. -/
theorem replaceScanF_nomatch (re : List Item) (repl : List Char) :
    ∀ (f : Nat) (cs : List Char), cs.length ≤ f → hasMatchIn re cs = false →
      replaceScanF re repl f cs = cs := by
  intro f
  induction f with
  | zero =>
    intro cs h1 _
    cases cs with
    | nil => simp [replaceScanF]
    | cons c cs => simp at h1
  | succ f ih =>
    intro cs h1 h2
    cases cs with
    | nil => simp [replaceScanF]
    | cons c cs =>
      rw [hasMatchIn, Bool.or_eq_false_iff] at h2
      obtain ⟨h2a, h2b⟩ := h2
      have hh : (reMatch re (c :: cs)).head? = none := by
        cases hl : reMatch re (c :: cs) with
        | nil => simp
        | cons x xs => rw [hl] at h2a; simp at h2a
      simp only [replaceScanF, hh]
      rw [ih cs (by simpa using h1) h2b]

/-- Compiling a non-empty pattern list yields at least one item. -/
theorem parseItemsF_cons_ne_nil {f : Nat} {c : Char} {cs : List Char} {re : List Item}
    (h : parseItemsF (f + 1) (c :: cs) = some re) : re ≠ [] := by
  simp only [parseItemsF] at h
  split at h
  · exact absurd h (by simp)
  · split at h
    · rw [Option.map_eq_some'] at h
      obtain ⟨l, _, hl⟩ := h
      simp [← hl]
    · exact absurd h (by simp)
    · exact absurd h (by simp)
    · exact absurd h (by simp)
    · rw [Option.map_eq_some'] at h
      obtain ⟨l, _, hl⟩ := h
      simp [← hl]

/-- A successfully compiled non-empty pattern string has at least one item. -/
theorem parsePattern_ne_nil {t : String} {re : List Item} (ht : t ≠ "")
    (h : parsePattern t = some re) : re ≠ [] := by
  unfold parsePattern at h
  have hlist : t.toList ≠ [] := by
    intro hl
    apply ht
    cases t with
    | mk data =>
      simp only [String.toList] at hl
      simp [hl]
  cases hl : t.toList with
  | nil => exact absurd hl hlist
  | cons c cs =>
    rw [hl] at h
    exact parseItemsF_cons_ne_nil h

/-- The only error `regexSplit` produces is the compilation-failure message. -/
theorem regexSplit_error_msg {i t e : String} (h : regexSplit i t = Except.error e) :
    e = "invalid regular expression" := by
  unfold regexSplit at h
  cases hp : parsePattern t with
  | none => rw [hp] at h; simp only [Except.error.injEq] at h; exact h.symm
  | some re => rw [hp] at h; simp at h

/-- The only error `regexReplace` produces is the compilation-failure message. -/
theorem regexReplace_error_msg {i p r e : String} (h : regexReplace i p r = Except.error e) :
    e = "invalid regular expression" := by
  unfold regexReplace at h
  cases hp : parsePattern p with
  | none => rw [hp] at h; simp only [Except.error.injEq] at h; exact h.symm
  | some re => rw [hp] at h; simp at h

/-- A successful regex split of a non-empty pattern yields at most
`input length + 1` fields. -/
theorem regexSplit_ok_length {s t : String} {r : List String} (ht : t ≠ "")
    (h : regexSplit s t = Except.ok r) : r.length ≤ s.toList.length + 1 := by
  unfold regexSplit at h
  cases hp : parsePattern t with
  | none => rw [hp] at h; simp at h
  | some re =>
    rw [hp] at h
    simp only [Except.ok.injEq] at h
    have hne := parsePattern_ne_nil ht hp
    cases re with
    | nil => exact absurd rfl hne
    | cons it rest =>
      rw [← h, List.length_map]
      exact splitScanF_length_le it rest _ [] _

/-- A non-negative C `int` survives the truncation and the `size_t` cast. -/
theorem sizeT_toInt32_nonneg {i : Int} (h0 : 0 ≤ i) (h1 : i < 2 ^ 31) :
    sizeTOfInt (toInt32 i) = i.toNat := by
  unfold sizeTOfInt toInt32
  omega

/-- A negative C `int` becomes at least `2 ^ 63` under the `size_t` cast. -/
theorem sizeT_toInt32_neg {i : Int} (h0 : -(2 ^ 31) ≤ i) (h1 : i < 0) :
    2 ^ 63 ≤ sizeTOfInt (toInt32 i) := by
  unfold sizeTOfInt toInt32
  omega

/-- A parsed octet consists of decimal digits only. -/
theorem octetValue_digits {l : List Char} {v : Nat} (h : octetValue l = some v) :
    l.all Char.isDigit = true := by
  unfold octetValue at h
  split_ifs at h with h1 h2 h3
  · exact h2

/-- Splitting on dots always yields at least one field. -/
theorem splitDots_ne_nil (cs : List Char) : splitDots cs ≠ [] := by
  induction cs with
  | nil => simp [splitDots]
  | cons c cs ih =>
    by_cases h : c = '.'
    · simp [splitDots, h]
    · simp only [splitDots, if_neg h]
      cases hs : splitDots cs with
      | nil => simp
      | cons l rest => simp

/-- If every dot-separated field satisfies `p`, every character of the input
is a dot or satisfies `p`. -/
theorem splitDots_chars {p : Char → Bool} : ∀ (cs : List Char),
    (∀ l ∈ splitDots cs, l.all p = true) → ∀ c ∈ cs, c = '.' ∨ p c = true := by
  intro cs
  induction cs with
  | nil => intro _ c hc; simp at hc
  | cons a cs ih =>
    intro h c hc
    by_cases ha : a = '.'
    · subst ha
      simp only [splitDots, if_pos rfl] at h
      rcases List.mem_cons.mp hc with hc | hc
      · exact Or.inl hc
      · exact ih (fun l hl => h l (List.mem_cons_of_mem _ hl)) c hc
    · simp only [splitDots, if_neg ha] at h
      rcases hsd : splitDots cs with _ | ⟨l, rest⟩
      · exact absurd hsd (splitDots_ne_nil cs)
      · rw [hsd] at h
        have hal := h (a :: l) (List.mem_cons_self _ _)
        simp only [List.all_cons, Bool.and_eq_true] at hal
        rcases List.mem_cons.mp hc with hc | hc
        · subst hc; exact Or.inr hal.1
        · apply ih _ c hc
          rw [hsd]
          intro l' hl'
          rcases List.mem_cons.mp hl' with h1 | h1
          · subst h1; exact hal.2
          · exact h l' (List.mem_cons_of_mem _ h1)

/-- A string that parses as dotted-decimal IPv4 contains no colon. -/
theorem parseIPv4_no_colon {s : String} {q : Nat × Nat × Nat × Nat}
    (h : parseIPv4 s = some q) : ¬ (':' ∈ s.toList) := by
  unfold parseIPv4 at h
  rcases hsd : splitDots s.toList with _ | ⟨a, _ | ⟨b, _ | ⟨c, _ | ⟨d, _ | _⟩⟩⟩⟩ <;>
    rw [hsd] at h <;> try simp at h
  · -- exactly four fields
    rcases hoa : octetValue a with _ | x <;> rw [hoa] at h <;> try simp at h
    rcases hob : octetValue b with _ | y <;> rw [hob] at h <;> try simp at h
    rcases hoc : octetValue c with _ | z <;> rw [hoc] at h <;> try simp at h
    rcases hod : octetValue d with _ | w <;> rw [hod] at h <;> try simp at h
    intro hmem
    have hall : ∀ l ∈ splitDots s.toList, l.all Char.isDigit = true := by
      rw [hsd]
      intro l hl
      rcases List.mem_cons.mp hl with h1 | h1
      · exact h1 ▸ octetValue_digits hoa
      rcases List.mem_cons.mp h1 with h1 | h1
      · exact h1 ▸ octetValue_digits hob
      rcases List.mem_cons.mp h1 with h1 | h1
      · exact h1 ▸ octetValue_digits hoc
      rcases List.mem_cons.mp h1 with h1 | h1
      · exact h1 ▸ octetValue_digits hod
      · simp at h1
    rcases splitDots_chars s.toList hall ':' hmem with hcol | hcol
    · exact absurd hcol (by decide)
    · exact absurd hcol (by decide)

/-! ### Claim theorems -/

/-- C1: for each of the four registered functions, if any required argument is
Null the function emits Null and returns immediately — before the
empty-pattern validation and before any computation — so a Null argument
never produces an error, even when another argument (such as the pattern) is
empty. -/
theorem null_propagates (a b c : Value) :
    (a = Value.null ∨ b = Value.null ∨ c = Value.null →
      tokenStringSplitFunc a b c = FuncResult.val Value.null ∧
      regexStringSplitFunc a b c = FuncResult.val Value.null ∧
      regexStringReplaceFunc a b c = FuncResult.val Value.null) ∧
    (a = Value.null → ip4StringToDecimalFunc a = FuncResult.val Value.null) := by
  constructor
  · intro h
    refine ⟨?_, ?_, ?_⟩
    · simp only [tokenStringSplitFunc, callStringSplitFunc]
      rw [if_pos h]
    · simp only [regexStringSplitFunc, callStringSplitFunc]
      rw [if_pos h]
    · simp only [regexStringReplaceFunc, callStringReplaceFunc]
      rw [if_pos h]
  · intro h
    simp only [ip4StringToDecimalFunc]
    rw [if_pos h]

theorem null_propagates_witness :
    tokenStringSplitFunc Value.null (Value.text "") (Value.int 0) = FuncResult.val Value.null ∧
    regexStringSplitFunc Value.null (Value.text "") (Value.int 0) = FuncResult.val Value.null ∧
    regexStringReplaceFunc Value.null (Value.text "") (Value.int 0) = FuncResult.val Value.null ∧
    ip4StringToDecimalFunc Value.null = FuncResult.val Value.null :=
  ⟨((null_propagates Value.null (Value.text "") (Value.int 0)).1 (Or.inl rfl)).1,
   ((null_propagates Value.null (Value.text "") (Value.int 0)).1 (Or.inl rfl)).2.1,
   ((null_propagates Value.null (Value.text "") (Value.int 0)).1 (Or.inl rfl)).2.2,
   (null_propagates Value.null (Value.text "") (Value.int 0)).2 rfl⟩

/-- C2: with non-Null arguments, an empty token/pattern makes `split` and
`regex_split` signal "Invalid input to split function" and makes
`regex_replace` signal "Invalid substring to find in replace function"
(regardless of the input text); with a non-empty token/pattern that
InvalidArgument error is never raised. -/
theorem empty_token_errors (a b c : Value)
    (ha : a ≠ Value.null) (hb : b ≠ Value.null) (hc : c ≠ Value.null) :
    (valueText b = "" →
      tokenStringSplitFunc a b c = FuncResult.err "Invalid input to split function" ∧
      regexStringSplitFunc a b c = FuncResult.err "Invalid input to split function" ∧
      regexStringReplaceFunc a b c =
        FuncResult.err "Invalid substring to find in replace function") ∧
    (valueText b ≠ "" →
      tokenStringSplitFunc a b c ≠ FuncResult.err "Invalid input to split function" ∧
      regexStringSplitFunc a b c ≠ FuncResult.err "Invalid input to split function" ∧
      regexStringReplaceFunc a b c ≠
        FuncResult.err "Invalid substring to find in replace function") := by
  have hnull : ¬ (a = Value.null ∨ b = Value.null ∨ c = Value.null) := by
    simp [ha, hb, hc]
  constructor
  · intro he
    refine ⟨?_, ?_, ?_⟩
    · simp only [tokenStringSplitFunc, callStringSplitFunc]
      rw [if_neg hnull, if_pos he]
    · simp only [regexStringSplitFunc, callStringSplitFunc]
      rw [if_neg hnull, if_pos he]
    · simp only [regexStringReplaceFunc, callStringReplaceFunc]
      rw [if_neg hnull, if_pos he]
  · intro he
    refine ⟨?_, ?_, ?_⟩
    · simp only [tokenStringSplitFunc, callStringSplitFunc]
      rw [if_neg hnull, if_neg he]
      by_cases hcase : (tokenSplit (valueText a) (valueText b)).length ≤
          sizeTOfInt (toInt32 (valueInt c))
      · rw [dif_pos hcase]; simp
      · rw [dif_neg hcase]; simp
    · simp only [regexStringSplitFunc, callStringSplitFunc]
      rw [if_neg hnull, if_neg he]
      cases hr : regexSplit (valueText a) (valueText b) with
      | error e =>
        simp only [hr]
        rw [regexSplit_error_msg hr]
        decide
      | ok r =>
        simp only [hr]
        by_cases hcase : r.length ≤ sizeTOfInt (toInt32 (valueInt c))
        · rw [dif_pos hcase]; simp
        · rw [dif_neg hcase]; simp
    · simp only [regexStringReplaceFunc, callStringReplaceFunc]
      rw [if_neg hnull, if_neg he]
      cases hr : regexReplace (valueText a) (valueText b) (valueText c) with
      | error e =>
        simp only [hr]
        rw [regexReplace_error_msg hr]
        decide
      | ok r => simp [hr]

theorem empty_token_errors_witness :
    tokenStringSplitFunc (Value.text "abc") (Value.text "") (Value.int 0) =
      FuncResult.err "Invalid input to split function" ∧
    regexStringSplitFunc (Value.text "abc") (Value.text "") (Value.int 0) =
      FuncResult.err "Invalid input to split function" ∧
    regexStringReplaceFunc (Value.text "abc") (Value.text "") (Value.int 0) =
      FuncResult.err "Invalid substring to find in replace function" :=
  (empty_token_errors (Value.text "abc") (Value.text "") (Value.int 0)
    (by simp) (by simp) (by simp)).1 rfl

/-- C3: for `split` and `regex_split` with non-Null arguments and a non-empty
token/pattern, a zero-based index at or past the number of produced substrings
yields Null (not an error); otherwise the substring at that index is emitted
as Text. -/
theorem split_index_selection (s t : String) (i : Int) (ht : t ≠ "")
    (h0 : 0 ≤ i) (h1 : i < 2 ^ 31) :
    ((tokenSplit s t).length ≤ i.toNat →
      tokenStringSplitFunc (Value.text s) (Value.text t) (Value.int i) =
        FuncResult.val Value.null) ∧
    (∀ h : i.toNat < (tokenSplit s t).length,
      tokenStringSplitFunc (Value.text s) (Value.text t) (Value.int i) =
        FuncResult.val (Value.text ((tokenSplit s t).get ⟨i.toNat, h⟩))) ∧
    (∀ r : List String, regexSplit s t = Except.ok r →
      (r.length ≤ i.toNat →
        regexStringSplitFunc (Value.text s) (Value.text t) (Value.int i) =
          FuncResult.val Value.null) ∧
      (∀ h : i.toNat < r.length,
        regexStringSplitFunc (Value.text s) (Value.text t) (Value.int i) =
          FuncResult.val (Value.text (r.get ⟨i.toNat, h⟩)))) := by
  have hnull : ¬ (Value.text s = Value.null ∨ Value.text t = Value.null ∨
      Value.int i = Value.null) := by simp
  have hidx : sizeTOfInt (toInt32 (valueInt (Value.int i))) = i.toNat := by
    simp only [valueInt]
    exact sizeT_toInt32_nonneg h0 h1
  refine ⟨?_, ?_, ?_⟩
  · intro hle
    simp only [tokenStringSplitFunc, callStringSplitFunc, valueText]
    rw [if_neg hnull, if_neg ht, dif_pos (by rw [hidx]; exact hle)]
  · intro h
    simp only [tokenStringSplitFunc, callStringSplitFunc, valueText]
    rw [if_neg hnull, if_neg ht, dif_neg (by rw [hidx]; exact not_le.mpr h)]
    exact congrArg (fun j : Fin (tokenSplit s t).length =>
      FuncResult.val (Value.text ((tokenSplit s t).get j))) (Fin.ext hidx)
  · intro r hr
    constructor
    · intro hle
      simp only [regexStringSplitFunc, callStringSplitFunc, valueText, hr]
      rw [if_neg hnull, if_neg ht, dif_pos (by rw [hidx]; exact hle)]
    · intro h
      simp only [regexStringSplitFunc, callStringSplitFunc, valueText, hr]
      rw [if_neg hnull, if_neg ht, dif_neg (by rw [hidx]; exact not_le.mpr h)]
      exact congrArg (fun j : Fin r.length =>
        FuncResult.val (Value.text (r.get j))) (Fin.ext hidx)

theorem split_index_selection_witness :
    tokenStringSplitFunc (Value.text "a.b.c") (Value.text ".") (Value.int 5) =
      FuncResult.val Value.null ∧
    tokenStringSplitFunc (Value.text "a.b.c") (Value.text ".") (Value.int 1) =
      FuncResult.val (Value.text "b") :=
  ⟨(split_index_selection "a.b.c" "." 5 (by decide) (by decide) (by decide)).1 (by decide),
   (split_index_selection "a.b.c" "." 1 (by decide) (by decide) (by decide)).2.1 (by decide)⟩

/-- C10: for `split` and `regex_split` with non-Null arguments and a non-empty
token/pattern, every negative index argument yields Null: the C `int` index is
converted by unsigned cast to `size_t`, so a negative value becomes a number
of at least `2 ^ 63` and always fails the index-in-range test (the result has
at most `input length + 1` entries). -/
theorem negative_index_null (s t : String) (i : Int) (ht : t ≠ "")
    (h0 : -(2 ^ 31) ≤ i) (h1 : i < 0) (hs : s.toList.length < 2 ^ 63) :
    2 ^ 63 ≤ sizeTOfInt (toInt32 i) ∧
    tokenStringSplitFunc (Value.text s) (Value.text t) (Value.int i) =
      FuncResult.val Value.null ∧
    (∀ r : List String, regexSplit s t = Except.ok r →
      regexStringSplitFunc (Value.text s) (Value.text t) (Value.int i) =
        FuncResult.val Value.null) := by
  have hge := sizeT_toInt32_neg h0 h1
  have hnull : ¬ (Value.text s = Value.null ∨ Value.text t = Value.null ∨
      Value.int i = Value.null) := by simp
  refine ⟨hge, ?_, ?_⟩
  · have hlen : (tokenSplit s t).length ≤ sizeTOfInt (toInt32 i) := by
      have hb : (tokenSplit s t).length ≤ s.toList.length + 1 := by
        unfold tokenSplit
        rw [List.length_map]
        exact tokenRunsAux_length_le _ _ _
      omega
    simp only [tokenStringSplitFunc, callStringSplitFunc, valueText, valueInt]
    rw [if_neg hnull, if_neg ht, dif_pos hlen]
  · intro r hr
    have hlen : r.length ≤ sizeTOfInt (toInt32 i) := by
      have hb := regexSplit_ok_length ht hr
      omega
    simp only [regexStringSplitFunc, callStringSplitFunc, valueText, valueInt, hr]
    rw [if_neg hnull, if_neg ht, dif_pos hlen]

theorem negative_index_null_witness :
    2 ^ 63 ≤ sizeTOfInt (toInt32 (-1)) ∧
    tokenStringSplitFunc (Value.text "a.b.c") (Value.text "\\.") (Value.int (-1)) =
      FuncResult.val Value.null ∧
    regexStringSplitFunc (Value.text "a.b.c") (Value.text "\\.") (Value.int (-1)) =
      FuncResult.val Value.null :=
  ⟨(negative_index_null "a.b.c" "\\." (-1) (by decide) (by decide) (by decide) (by decide)).1,
   (negative_index_null "a.b.c" "\\." (-1) (by decide) (by decide) (by decide) (by decide)).2.1,
   (negative_index_null "a.b.c" "\\." (-1) (by decide) (by decide) (by decide) (by decide)).2.2
     ["a", "b", "c"] (by rfl)⟩

/-- C4: `inet_aton("192.168.0.1")` emits the integer 3232235521, and in
general every text that parses as dotted-decimal IPv4 `a.b.c.d` emits the
unsigned 32-bit integer `a*2^24 + b*2^16 + c*2^8 + d` — the big-endian byte
sequence of the four octets read as one number. -/
theorem inet_aton_dotted_decimal :
    ip4StringToDecimalFunc (Value.text "192.168.0.1") =
      FuncResult.val (Value.int 3232235521) ∧
    ∀ (s : String) (a b c d : Nat), parseIPv4 s = some (a, b, c, d) →
      ip4StringToDecimalFunc (Value.text s) =
        FuncResult.val (Value.int (a * 2 ^ 24 + b * 2 ^ 16 + c * 2 ^ 8 + d)) := by
  refine ⟨by decide, ?_⟩
  intro s a b c d h
  have hnc := parseIPv4_no_colon h
  simp only [ip4StringToDecimalFunc, valueText]
  rw [if_neg (by simp), if_neg hnc, h]

theorem inet_aton_dotted_decimal_witness :
    parseIPv4 "10.20.30.40" = some (10, 20, 30, 40) ∧
    ip4StringToDecimalFunc (Value.text "10.20.30.40") =
      FuncResult.val (Value.int (10 * 2 ^ 24 + 20 * 2 ^ 16 + 30 * 2 ^ 8 + 40)) :=
  ⟨by decide, inet_aton_dotted_decimal.2 "10.20.30.40" 10 20 30 40 (by decide)⟩

/-- C5: for every non-Null text argument, `inet_aton` emits Null (never an
error) when the text contains a colon — treated as IPv6, without attempting an
IPv4 parse — or when the text fails to parse as dotted-decimal IPv4. -/
theorem inet_aton_non_ipv4_null (s : String) :
    (':' ∈ s.toList →
      ip4StringToDecimalFunc (Value.text s) = FuncResult.val Value.null) ∧
    (parseIPv4 s = none →
      ip4StringToDecimalFunc (Value.text s) = FuncResult.val Value.null) := by
  constructor
  · intro h
    simp only [ip4StringToDecimalFunc, valueText]
    rw [if_neg (by simp), if_pos h]
  · intro h
    simp only [ip4StringToDecimalFunc, valueText]
    rw [if_neg (by simp)]
    by_cases hc : ':' ∈ s.toList
    · rw [if_pos hc]
    · rw [if_neg hc, h]

theorem inet_aton_non_ipv4_null_witness :
    ip4StringToDecimalFunc (Value.text "::1") = FuncResult.val Value.null ∧
    ip4StringToDecimalFunc (Value.text "not an ip") = FuncResult.val Value.null :=
  ⟨(inet_aton_non_ipv4_null "::1").1 (by decide),
   (inet_aton_non_ipv4_null "not an ip").2 (by decide)⟩

/-- C6: `regex_replace` substitutes every non-overlapping match of the
pattern (global replacement, not first-match-only) — e.g.
`regex_replace("/Users/bob/ws/proj", "/Users/[^/]+/", "./") == "./ws/proj"`
and both dots of `"a.b.c"` are replaced — and whenever the pattern matches
nothing in the input, the result equals the input unchanged. -/
theorem regex_replace_global_identity :
    regexReplace "/Users/bob/ws/proj" "/Users/[^/]+/" "./" = Except.ok "./ws/proj" ∧
    regexReplace "a.b.c" "\\." "-" = Except.ok "a-b-c" ∧
    ∀ (x p r : String) (re : List Item), parsePattern p = some re →
      hasMatchIn re x.toList = false → regexReplace x p r = Except.ok x := by
  refine ⟨by rfl, by rfl, ?_⟩
  intro x p r re hp hm
  unfold regexReplace
  rw [hp]
  show Except.ok (String.mk (replaceScanF re r.toList x.toList.length x.toList)) = Except.ok x
  rw [replaceScanF_nomatch re r.toList x.toList.length x.toList le_rfl hm]
  cases x with
  | mk data => rfl

theorem regex_replace_global_identity_witness :
    parsePattern "x" = some [⟨Atom.lit 'x', false⟩] ∧
    hasMatchIn [⟨Atom.lit 'x', false⟩] "abc".toList = false ∧
    regexReplace "abc" "x" "y" = Except.ok "abc" :=
  ⟨by rfl, by rfl,
   regex_replace_global_identity.2.2 "abc" "x" "y" [⟨Atom.lit 'x', false⟩] (by rfl) (by rfl)⟩

/-- C7: `regex_split` decomposes the input at each non-overlapping match of
the pattern compiled as a regular expression — substring/regex matching, not
character-class matching: `regex_split("192.168.0.1", "\.", 1) == "168"` and
`regex_split("192.168.0.1", "\.0", 0) == "192.168"`. -/
theorem regex_split_regex_semantics :
    regexStringSplitFunc (Value.text "192.168.0.1") (Value.text "\\.") (Value.int 1) =
      FuncResult.val (Value.text "168") ∧
    regexStringSplitFunc (Value.text "192.168.0.1") (Value.text "\\.0") (Value.int 0) =
      FuncResult.val (Value.text "192.168") :=
  ⟨by decide, by decide⟩

/-- C8: `split` performs character-class splitting — the input is decomposed
into maximal runs of characters not in the delimiter set, each delimiter
character independently ending a run: `split("a.b.c", ".", 1) == "b"`,
`split("a.b.c", ".", 5) == null`, `split("192.168.0.1", ".0", 0) == "192"`,
and every produced substring is non-empty and free of delimiter characters. -/
theorem split_character_class_semantics :
    tokenStringSplitFunc (Value.text "a.b.c") (Value.text ".") (Value.int 1) =
      FuncResult.val (Value.text "b") ∧
    tokenStringSplitFunc (Value.text "a.b.c") (Value.text ".") (Value.int 5) =
      FuncResult.val Value.null ∧
    tokenStringSplitFunc (Value.text "192.168.0.1") (Value.text ".0") (Value.int 0) =
      FuncResult.val (Value.text "192") ∧
    ∀ (s t piece : String), piece ∈ tokenSplit s t →
      piece ≠ "" ∧ ∀ c ∈ piece.toList, ¬ (c ∈ t.toList) := by
  refine ⟨by decide, by decide, by decide, ?_⟩
  intro s t piece hp
  unfold tokenSplit at hp
  rw [List.mem_map] at hp
  obtain ⟨l, hl, hlp⟩ := hp
  have hprop := tokenRunsAux_pieces t.toList s.toList [] (by simp) l hl
  constructor
  · intro hcontra
    exact hprop.1 (by simpa using congrArg String.data (hlp.trans hcontra))
  · intro c hcmem
    apply hprop.2 c
    rw [← hlp] at hcmem
    simpa [String.toList] using hcmem

theorem split_character_class_semantics_witness :
    "b" ∈ tokenSplit "a.b.c" "." ∧
    "b" ≠ "" ∧ ∀ c ∈ "b".toList, ¬ (c ∈ ".".toList) :=
  ⟨by decide,
   split_character_class_semantics.2.2.2 "a.b.c" "." "b" (by decide)⟩

/-- C9: a non-Null, non-empty pattern rejected by the regular-expression
compiler makes `regex_split` and `regex_replace` report an error through the
same engine error-reporting path used for InvalidArgument (an error result,
not a crash and not a value). -/
theorem malformed_pattern_propagates_error (s t r : String) (i : Int) (ht : t ≠ "")
    (hp : parsePattern t = none) :
    regexStringSplitFunc (Value.text s) (Value.text t) (Value.int i) =
      FuncResult.err "invalid regular expression" ∧
    regexStringReplaceFunc (Value.text s) (Value.text t) (Value.text r) =
      FuncResult.err "invalid regular expression" := by
  have hsplit : regexSplit s t = Except.error "invalid regular expression" := by
    unfold regexSplit
    rw [hp]
  have hreplace : regexReplace s t r = Except.error "invalid regular expression" := by
    unfold regexReplace
    rw [hp]
  constructor
  · simp only [regexStringSplitFunc, callStringSplitFunc, valueText, hsplit]
    rw [if_neg (by simp), if_neg ht]
  · simp only [regexStringReplaceFunc, callStringReplaceFunc, valueText, hreplace]
    rw [if_neg (by simp), if_neg ht]

theorem malformed_pattern_propagates_error_witness :
    regexStringSplitFunc (Value.text "a") (Value.text "[") (Value.int 0) =
      FuncResult.err "invalid regular expression" ∧
    regexStringReplaceFunc (Value.text "a") (Value.text "[") (Value.text "b") =
      FuncResult.err "invalid regular expression" :=
  malformed_pattern_propagates_error "a" "[" "b" 0 (by decide) (by rfl)
